import Mathlib

/-!
Verification of the job-queue monitor core (`src/job.rs`):
the record parser `Job::from_parts`, the composite identity `Job::id`,
and the filename-placeholder resolver `Job::resolve_path`.

Strings are modelled as `List Char`; the escape characters and the
separator characters involved are ASCII, so byte offsets in the Rust
code correspond one-to-one to character offsets here.
-/

/-- The characters that may follow `%` in the pattern
`%(%|A|a|J|j|N|n|s|t|u|x)` compiled in `Job::resolve_path`. -/
def escapeChars : List Char := ['%', 'A', 'a', 'J', 'j', 'N', 'n', 's', 't', 'u', 'x']

/-- The list of matches produced by `RE.captures_iter` on `path`:
non-overlapping leftmost matches of `%(%|A|a|J|j|N|n|s|t|u|x)`, scanned
left to right, each recorded as (start offset, captured character).
`i` is the offset of the head of `l` in the whole string. -/
def findMatches (l : List Char) (i : Nat) : List (Nat × Char) :=
  match l with
  | [] => []
  | [_] => []
  | c1 :: c2 :: rest =>
    if c1 = '%' ∧ c2 ∈ escapeChars then (i, c2) :: findMatches rest (i + 2)
    else findMatches (c2 :: rest) (i + 1)

/-- `String::replace_range(m.range(), repl)` for a match of byte length 2
(every match of the pattern is two ASCII characters). -/
def replaceRange (l : List Char) (start : Nat) (repl : List Char) : List Char :=
  l.take start ++ repl ++ l.drop (start + 2)

/-- The substitution pass of `Job::resolve_path`: collect all matches,
then apply `replace_range` for each match in reverse scan order
(`.iter().rev()`), threading the partially rewritten string through.
`r` maps the captured character to its replacement text. -/
def substMatches (r : Char → List Char) (l : List Char) : List Char :=
  (findMatches l 0).foldr (fun m acc => replaceRange acc m.1 (r m.2)) l

/-- Modelled from the spec's words (refinement target for the substitution
pass): a single left-to-right rebuild of the template that replaces each
escape `%c` by `r c` and copies every other character. -/
def substRebuild (r : Char → List Char) : List Char → List Char
  | [] => []
  | [c] => [c]
  | c1 :: c2 :: rest =>
    if c1 = '%' ∧ c2 ∈ escapeChars then r c2 ++ substRebuild r rest
    else c1 :: substRebuild r (c2 :: rest)

/-- The context values `Job::resolve_path` reads from the field map:
`ArrayJobID`, `ArrayTaskID` (raw), `jobid`, `NodeList`, `username`,
`name`, `WorkDir`. -/
structure ResolveCtx where
  arrayJobId : List Char
  arrayTaskId : List Char
  jobId : List Char
  nodelist : List Char
  username : List Char
  name : List Char
  workingDir : List Char
deriving DecidableEq

/-- `let slurm_no_val = "4294967294";` -/
def slurmNoVal : List Char := "4294967294".toList

/-- `let array_id = if array_id == "N/A" { slurm_no_val } else { array_id };` -/
def normalizeTaskId (raw : List Char) : List Char :=
  if raw = "N/A".toList then slurmNoVal else raw

/-- `host.split(',').next().unwrap_or(host)`: the prefix of the node list
up to the first comma (the whole string when there is no comma). -/
def firstNodeEntry (host : List Char) : List Char :=
  host.takeWhile (fun c => c ≠ ',')

/-- The replacement table of `Job::resolve_path` (`aId` is the normalized
array task id). The final branch is unreachable: `findMatches` only
produces characters of `escapeChars`. -/
def replCh (ctx : ResolveCtx) (aId : List Char) (c : Char) : List Char :=
  if c = '%' then ['%']
  else if c = 'A' then ctx.arrayJobId
  else if c = 'a' then aId
  else if c = 'J' then ctx.jobId
  else if c = 'j' then ctx.jobId
  else if c = 'N' then firstNodeEntry ctx.nodelist
  else if c = 'n' then ['0']
  else if c = 's' then "batch".toList
  else if c = 't' then ['0']
  else if c = 'u' then ctx.username
  else if c = 'x' then ctx.name
  else []

/-- `PathBuf::from(base).join(p)` on Unix: an absolute `p` replaces the
base; otherwise a separator is inserted unless the base is empty or
already ends with one. -/
def joinPath (base p : List Char) : List Char :=
  if p.head? = some '/' then p
  else if base = [] then p
  else if base.getLast? = some '/' then base ++ p
  else base ++ '/' :: p

/-- `Job::resolve_path` given the seven context values (all map lookups
already succeeded): normalize the array task id, fall back to the default
template when `path` is empty, return `None` on the literal `"(null)"`,
otherwise substitute the placeholders and join onto the working
directory. -/
def resolve_path_pure (path : List Char) (ctx : ResolveCtx) : Option (List Char) :=
  let aId := normalizeTaskId ctx.arrayTaskId
  let path1 :=
    if path = [] then
      joinPath ctx.workingDir
        (if aId = slurmNoVal then "slurm-%J.out".toList else "slurm-%A_%a.out".toList)
    else path
  if path1 = "(null)".toList then none
  else some (joinPath ctx.workingDir (substMatches (replCh ctx aId) path1))

example : substMatches (replCh ⟨"10".toList, "2".toList, "55".toList, "n1,n2".toList,
    "u".toList, "foo".toList, "/w".toList⟩ (normalizeTaskId "2".toList))
    "%x-%j.out".toList = "foo-55.out".toList := by decide

example : resolve_path_pure "%x-%j.out".toList
    ⟨"10".toList, "2".toList, "55".toList, "n1,n2".toList, "u".toList, "foo".toList,
     "/w".toList⟩ = some "/w/foo-55.out".toList := by decide

/-- Fuel-indexed worker for `str::split` with a non-empty separator:
at each position, if the separator is a prefix, close the current piece
and continue past it; otherwise carry the head character into the first
piece of the recursive result. Fuel `l.length` always suffices: every
step shortens the list by at least one character while spending one unit
of fuel, and the fuel-exhausted branch is then reached only on `[]`,
where it agrees with the main branch. -/
def splitFuel (sep : List Char) : Nat → List Char → List (List Char)
  | 0, l => [l]
  | n + 1, l =>
    if sep.isPrefixOf l then
      [] :: splitFuel sep n (l.drop sep.length)
    else
      match l with
      | [] => [[]]
      | c :: rest =>
        match splitFuel sep n rest with
        | [] => [[c]]
        | p :: ps => (c :: p) :: ps

/-- `line.split(separator)`: Rust `str::split` on a string pattern. An
empty pattern matches at every character boundary, yielding an empty
piece at each end and each character as its own piece. -/
def splitOnList (sep l : List Char) : List (List Char) :=
  if sep = [] then [] :: ((l.map fun c => [c]) ++ [[]])
  else splitFuel sep l.length l

example : splitOnList "##".toList "a##b##".toList =
    ["a".toList, "b".toList, "".toList] := by decide
example : splitOnList "aa".toList "aaa".toList = ["".toList, "a".toList] := by decide
example : splitOnList "".toList "ab".toList =
    [[], ['a'], ['b'], []] := by decide

/-- The `HashMap` built by inserting `(field, part)` pairs in order of
`fields.iter().zip(parts)`: a later insert for the same key overwrites
an earlier one, and `zip` stops at the shorter list. Lookup is function
application. -/
def buildMap (fields parts : List (List Char)) : List Char → Option (List Char) :=
  (fields.zip parts).foldl (fun m fp k => if k = fp.1 then some fp.2 else m k)
    (fun _ => none)

/-- The `Job` struct. -/
structure Job where
  job_id : List Char
  array_id : List Char
  array_step : Option (List Char)
  name : List Char
  state : List Char
  state_compact : List Char
  reason : Option (List Char)
  user : List Char
  time : List Char
  tres : List Char
  partition : List Char
  nodelist : List Char
  stdout : Option (List Char)
  stderr : Option (List Char)
  command : List Char
deriving DecidableEq

/-- `Job::id`: the composite identity — `"{array_id}_{array_step}"` when
the array step is present, otherwise the plain job id. -/
def Job.id (j : Job) : List Char :=
  match j.array_step with
  | some s => j.array_id ++ '_' :: s
  | none => j.job_id

/-- Outcome of `Job::from_parts`, separating the code's three behaviours:
returning `Some(job)`, returning `None` on a malformed line, and
panicking on a missing mandatory field (`unwrap` on a failed lookup). -/
inductive ParseResult where
  | ok (j : Job)
  | malformed
  | panicked
deriving DecidableEq

/-- The lookups and `unwrap`s at the head of `Job::resolve_path`:
`ArrayJobID`, `ArrayTaskID`, `jobid`, `NodeList`, `username`, `name`,
`WorkDir`. A missing key is a panic, modelled as the outer `none`. -/
def resolve_path_fv (path : List Char) (fv : List Char → Option (List Char)) :
    Option (Option (List Char)) :=
  match fv "ArrayJobID".toList, fv "ArrayTaskID".toList, fv "jobid".toList,
      fv "NodeList".toList, fv "username".toList, fv "name".toList,
      fv "WorkDir".toList with
  | some am, some ai, some id, some host, some u, some n, some wd =>
    some (resolve_path_pure path ⟨am, ai, id, host, u, n, wd⟩)
  | _, _, _, _, _, _, _ => none

/-- The body of `Job::from_parts` after the length check, reading from the
field map. `none` models a panic: an `unwrap` on a key absent from the
map (directly, or inside `resolve_path`). `reason` is the only optional
lookup (`get("reason").filter(|v| v != "None").cloned()`). -/
def from_partsAux (fv : List Char → Option (List Char)) : Option Job :=
  match fv "jobid".toList, fv "ArrayJobID".toList, fv "ArrayTaskID".toList,
      fv "name".toList, fv "state".toList, fv "statecompact".toList,
      fv "username".toList, fv "timeused".toList, fv "tres-alloc".toList,
      fv "tres-per-node".toList, fv "partition".toList, fv "NodeList".toList,
      fv "command".toList, fv "stdout".toList, fv "stderr".toList with
  | some job_id, some array_id, some array_task_id, some name, some state,
    some state_compact, some user, some time, some cpu_tres, some tres_per_node,
    some partition, some nodelist, some command, some stdout_t, some stderr_t =>
    match resolve_path_fv stdout_t fv, resolve_path_fv stderr_t fv with
    | some stdout, some stderr =>
      some { job_id := job_id
             array_id := array_id
             array_step := if array_task_id = "N/A".toList then none else some array_task_id
             name := name
             state := state
             state_compact := state_compact
             reason := match fv "reason".toList with
               | some v => if v = "None".toList then none else some v
               | none => none
             user := user
             time := time
             tres := if tres_per_node = "N/A".toList then cpu_tres
               else cpu_tres ++ ',' :: tres_per_node
             partition := partition
             nodelist := nodelist
             stdout := stdout
             stderr := stderr
             command := command }
    | _, _ => none
  | _, _, _, _, _, _, _, _, _, _, _, _, _, _, _ => none

/-- `Job::from_parts`: split the line on the separator, return `None`
(`malformed`) unless there are exactly `fields.len() + 1` pieces, build
the field map, then run the field extraction (which panics on a missing
mandatory field). -/
def from_parts (line : List Char) (fields : List (List Char)) (sep : List Char) :
    ParseResult :=
  let parts := splitOnList sep line
  if parts.length ≠ fields.length + 1 then .malformed
  else
    match from_partsAux (buildMap fields parts) with
    | some j => .ok j
    | none => .panicked

/-- The field names `Job::from_parts` (including the two `resolve_path`
calls it makes) unconditionally `unwrap`s after a lookup. -/
def mandatoryFields : List (List Char) :=
  ["jobid".toList, "ArrayJobID".toList, "ArrayTaskID".toList, "name".toList,
   "state".toList, "statecompact".toList, "username".toList, "timeused".toList,
   "tres-alloc".toList, "tres-per-node".toList, "partition".toList,
   "NodeList".toList, "command".toList, "stdout".toList, "stderr".toList,
   "WorkDir".toList]

/-- The field schema the watcher passes to `Job::from_parts`. -/
def watcherFields : List (List Char) :=
  ["jobid".toList, "name".toList, "state".toList, "username".toList,
   "timeused".toList, "tres-alloc".toList, "partition".toList, "nodelist".toList,
   "stdout".toList, "stderr".toList, "command".toList, "statecompact".toList,
   "reason".toList, "ArrayJobID".toList, "ArrayTaskID".toList, "NodeList".toList,
   "WorkDir".toList, "tres-per-node".toList]

/-- A sample squeue line for `watcherFields`, separator `#`, with a
trailing separator as the scheduler's `--Format` output produces. -/
def sampleLine : List Char :=
  ("7#x#RUNNING#u#1:00#cpu=2,mem=4G#p#n1#(null)#(null)#c#R#None#100#3#n1,n2#/w#gpu:1#").toList

def sampleSep : List Char := "#".toList

/-- The record `from_parts` produces for `sampleLine`. -/
def sampleJob : Job :=
  { job_id := "7".toList
    array_id := "100".toList
    array_step := some "3".toList
    name := "x".toList
    state := "RUNNING".toList
    state_compact := "R".toList
    reason := none
    user := "u".toList
    time := "1:00".toList
    tres := "cpu=2,mem=4G,gpu:1".toList
    partition := "p".toList
    nodelist := "n1,n2".toList
    stdout := none
    stderr := none
    command := "c".toList }

example : from_parts sampleLine watcherFields sampleSep = .ok sampleJob := by decide

/-! ## Lemmas about the substitution pass -/

/-- Match offsets shift uniformly with the scan position. -/
theorem findMatches_shift : ∀ (l : List Char) (i : Nat),
    findMatches l i = (findMatches l 0).map (fun p => (p.1 + i, p.2))
  | [], _ => by simp [findMatches]
  | [c], _ => by simp [findMatches]
  | c1 :: c2 :: rest, i => by
    by_cases h : c1 = '%' ∧ c2 ∈ escapeChars
    · simp only [findMatches, if_pos h]
      rw [findMatches_shift rest (i + 2), findMatches_shift rest 2]
      simp only [List.map_cons, List.map_map, Nat.zero_add]
      refine congrArg _ (List.map_congr_left fun p _ => ?_)
      simp only [Function.comp_apply, Prod.mk.injEq]
      exact ⟨by omega, trivial⟩
    · simp only [findMatches, if_neg h]
      rw [findMatches_shift (c2 :: rest) (i + 1), findMatches_shift (c2 :: rest) 1,
        List.map_map]
      refine List.map_congr_left fun p _ => ?_
      simp only [Function.comp_apply, Prod.mk.injEq]
      exact ⟨by omega, trivial⟩
termination_by l _ => l.length

/-- Replacements at offsets past a fixed prefix leave the prefix intact. -/
theorem foldr_replaceRange_shift (r : Char → List Char) (pre : List Char) :
    ∀ (ms : List (Nat × Char)) (l : List Char),
    (ms.map fun p => (p.1 + pre.length, p.2)).foldr
        (fun m acc => replaceRange acc m.1 (r m.2)) (pre ++ l)
      = pre ++ ms.foldr (fun m acc => replaceRange acc m.1 (r m.2)) l := by
  intro ms
  induction ms with
  | nil => intro l; rfl
  | cons m ms ih =>
    intro l
    simp only [List.map_cons, List.foldr_cons, ih]
    unfold replaceRange
    rw [Nat.add_comm m.1 pre.length, List.take_append,
      show pre.length + m.1 + 2 = pre.length + (m.1 + 2) by omega, List.drop_append]
    simp [List.append_assoc]

/-- The reverse-order in-place replacement pass coincides with the
left-to-right rebuild, for any replacement table. -/
theorem subst_matches_eq_rebuild (r : Char → List Char) :
    ∀ l : List Char, substMatches r l = substRebuild r l
  | [] => rfl
  | [c] => rfl
  | c1 :: c2 :: rest => by
    by_cases h : c1 = '%' ∧ c2 ∈ escapeChars
    · unfold substMatches substRebuild
      simp only [findMatches, if_pos h, List.foldr_cons]
      rw [findMatches_shift rest 2]
      have hp := foldr_replaceRange_shift r [c1, c2] (findMatches rest 0) rest
      simp only [List.length_cons, List.length_nil, List.cons_append,
        List.nil_append] at hp
      norm_num at hp
      rw [hp]
      unfold replaceRange
      simp only [List.take_zero, List.nil_append, List.drop_succ_cons,
        List.drop_zero, Nat.zero_add]
      rw [← subst_matches_eq_rebuild r rest]
      rfl
    · unfold substMatches substRebuild
      simp only [findMatches, if_neg h]
      rw [findMatches_shift (c2 :: rest) 1]
      have hp := foldr_replaceRange_shift r [c1] (findMatches (c2 :: rest) 0) (c2 :: rest)
      simp only [List.length_cons, List.length_nil, List.cons_append,
        List.nil_append] at hp
      norm_num at hp
      rw [hp]
      rw [← subst_matches_eq_rebuild r (c2 :: rest)]
      rfl
termination_by l => l.length

/-! ## Claim theorems -/

/-- C1: for every template string and context, the substitution pass of
`Job::resolve_path` — non-overlapping left-to-right matches of the
pattern `%(%|A|a|J|j|N|n|s|t|u|x)`, replaced in place in reverse scan
order — produces exactly the same string as a single left-to-right
rebuild replacing each escape per the table (with `%a` mapped to the
normalized array task id), regardless of how the replacement text
lengths differ from the two-character escape lengths. -/
theorem c1_subst_refines_rebuild (ctx : ResolveCtx) (template : List Char) :
    substMatches (replCh ctx (normalizeTaskId ctx.arrayTaskId)) template
      = substRebuild (replCh ctx (normalizeTaskId ctx.arrayTaskId)) template :=
  subst_matches_eq_rebuild _ template

/-- C2: for every input line, field schema and separator, if splitting the
line yields a number of pieces different from `fields.length + 1`, then
`Job::from_parts` returns `None` (malformed) — never a record. -/
theorem c2_wrong_piece_count_malformed (line : List Char) (fields : List (List Char))
    (sep : List Char) (h : (splitOnList sep line).length ≠ fields.length + 1) :
    from_parts line fields sep = ParseResult.malformed := by
  unfold from_parts
  simp [h]

theorem c2_wrong_piece_count_malformed_witness :
    (splitOnList "#".toList "".toList).length ≠ ["f".toList].length + 1 ∧
      from_parts "".toList ["f".toList] "#".toList = ParseResult.malformed :=
  ⟨by decide, c2_wrong_piece_count_malformed _ _ _ (by decide)⟩

/-- C5: for every context, the literal template `"(null)"` resolves to
`None` — the job has no output destination. -/
theorem c5_null_template_absent (ctx : ResolveCtx) :
    resolve_path_pure "(null)".toList ctx = none := by
  unfold resolve_path_pure
  have h1 : "(null)".toList ≠ ([] : List Char) := by decide
  simp [h1]

/-- `zip` only consumes the first `a.length` entries of its second list. -/
theorem zip_eq_zip_take {α β : Type} : ∀ (a : List α) (b : List β),
    a.zip b = a.zip (b.take a.length)
  | [], _ => rfl
  | _ :: _, [] => rfl
  | x :: xs, y :: ys => by
    simp only [List.zip_cons_cons, List.length_cons, List.take_succ_cons]
    rw [← zip_eq_zip_take xs ys]

/-- C9: two lines that each split into exactly `fields.length + 1` pieces
and agree on the first `fields.length` pieces parse identically — the
trailing piece is ignored entirely and never checked to be empty. -/
theorem c9_trailing_piece_ignored (fields : List (List Char)) (sep l1 l2 : List Char)
    (h1 : (splitOnList sep l1).length = fields.length + 1)
    (h2 : (splitOnList sep l2).length = fields.length + 1)
    (hagree : (splitOnList sep l1).take fields.length
      = (splitOnList sep l2).take fields.length) :
    from_parts l1 fields sep = from_parts l2 fields sep := by
  unfold from_parts
  simp only [h1, h2, ne_eq, not_true_eq_false, if_false, ite_false]
  have hmap : buildMap fields (splitOnList sep l1) = buildMap fields (splitOnList sep l2) := by
    unfold buildMap
    rw [zip_eq_zip_take fields (splitOnList sep l1),
      zip_eq_zip_take fields (splitOnList sep l2), hagree]
  rw [hmap]

theorem c9_trailing_piece_ignored_witness :
    from_parts "?;x;".toList ["a".toList, "b".toList] ";".toList
      = from_parts "?;x;junk".toList ["a".toList, "b".toList] ";".toList :=
  c9_trailing_piece_ignored _ _ _ _ (by decide) (by decide) (by decide)

/-- Joining a non-empty component never yields the empty path. -/
theorem joinPath_ne_nil {p : List Char} (hp : p ≠ []) (base : List Char) :
    joinPath base p ≠ [] := by
  unfold joinPath
  split_ifs <;> simp_all

/-- C4: for every context, resolving an empty template first selects a
default — `working_dir/slurm-%J.out` when the normalized array task id
equals the sentinel `"4294967294"`, else `working_dir/slurm-%A_%a.out` —
and then runs that default through the same substitution pass; a
non-array job with job id `"7"` yields `/w/slurm-7.out` and an array job
with array task id `"2"` and array job id `"10"` yields
`/w/slurm-10_2.out`, each under working dir `/w`. -/
theorem c4_empty_template_default :
    (∀ ctx : ResolveCtx,
      resolve_path_pure [] ctx =
        resolve_path_pure
          (joinPath ctx.workingDir
            (if normalizeTaskId ctx.arrayTaskId = slurmNoVal
             then "slurm-%J.out".toList else "slurm-%A_%a.out".toList)) ctx)
    ∧ resolve_path_pure []
        ⟨"7".toList, "N/A".toList, "7".toList, "n1".toList, "u".toList, "x".toList,
         "/w".toList⟩
        = some "/w/slurm-7.out".toList
    ∧ resolve_path_pure []
        ⟨"10".toList, "2".toList, "77".toList, "n1".toList, "u".toList, "x".toList,
         "/w".toList⟩
        = some "/w/slurm-10_2.out".toList := by
  refine ⟨?_, by decide, by decide⟩
  intro ctx
  have hD : joinPath ctx.workingDir
      (if normalizeTaskId ctx.arrayTaskId = slurmNoVal
       then "slurm-%J.out".toList else "slurm-%A_%a.out".toList) ≠ [] := by
    apply joinPath_ne_nil
    split <;> decide
  unfold resolve_path_pure
  simp [hD]

/-! ## Inversion lemmas for the parser -/

/-- A successful `resolve_path` call implies the `WorkDir` lookup
succeeded. -/
theorem resolve_path_fv_some {p : List Char} {fv : List Char → Option (List Char)}
    {r : Option (List Char)} (h : resolve_path_fv p fv = some r) :
    ∃ wd, fv "WorkDir".toList = some wd := by
  unfold resolve_path_fv at h
  split at h
  · rename_i am ai id host u n wd h1 h2 h3 h4 h5 h6 h7
    exact ⟨wd, h7⟩
  · exact Option.noConfusion h

/-- Inversion of the field extraction: a produced record determines the
outcome of every mandatory lookup and the derived fields. -/
theorem from_partsAux_inv {fv : List Char → Option (List Char)} {j : Job}
    (h : from_partsAux fv = some j) :
    fv "jobid".toList = some j.job_id ∧
    fv "ArrayJobID".toList = some j.array_id ∧
    (∃ atid, fv "ArrayTaskID".toList = some atid ∧
      j.array_step = (if atid = "N/A".toList then none else some atid)) ∧
    fv "name".toList = some j.name ∧
    fv "state".toList = some j.state ∧
    fv "statecompact".toList = some j.state_compact ∧
    fv "username".toList = some j.user ∧
    fv "timeused".toList = some j.time ∧
    (∃ ct tn, fv "tres-alloc".toList = some ct ∧ fv "tres-per-node".toList = some tn ∧
      j.tres = (if tn = "N/A".toList then ct else ct ++ ',' :: tn)) ∧
    fv "partition".toList = some j.partition ∧
    fv "NodeList".toList = some j.nodelist ∧
    fv "command".toList = some j.command ∧
    (∃ st, fv "stdout".toList = some st) ∧
    (∃ se, fv "stderr".toList = some se) ∧
    (∃ wd, fv "WorkDir".toList = some wd) := by
  unfold from_partsAux at h
  split at h
  · rename_i job_id array_id array_task_id name state state_compact user time
      cpu_tres tres_per_node partition nodelist command stdout_t stderr_t
      h1 h2 h3 h4 h5 h6 h7 h8 h9 h10 h11 h12 h13 h14 h15
    split at h
    · rename_i stdout stderr hr1 hr2
      injection h with h'
      subst h'
      refine ⟨h1, h2, ⟨array_task_id, h3, rfl⟩, h4, h5, h6, h7, h8,
        ⟨cpu_tres, tres_per_node, h9, h10, rfl⟩, h11, h12, h13,
        ⟨stdout_t, h14⟩, ⟨stderr_t, h15⟩, resolve_path_fv_some hr1⟩
    · exact Option.noConfusion h
  · exact Option.noConfusion h

/-- A record returned by `from_parts` came from the field extraction on
the map built from the split line. -/
theorem from_parts_ok_inv {line : List Char} {fields : List (List Char)}
    {sep : List Char} {j : Job} (h : from_parts line fields sep = ParseResult.ok j) :
    from_partsAux (buildMap fields (splitOnList sep line)) = some j := by
  simp only [from_parts] at h
  split at h
  · exact ParseResult.noConfusion h
  · split at h
    · rename_i j' heq
      rw [heq]
      injection h with h'
      rw [h']
    · exact ParseResult.noConfusion h

/-- C3: for every successfully parsed record, a raw array-task-id of
`"N/A"` gives an absent `array_step` and `id()` equal to the job id;
any other raw value is kept as `array_step` and `id()` is the array id,
`'_'`, and the step. -/
theorem c3_composite_id (line : List Char) (fields : List (List Char))
    (sep : List Char) (j : Job) (v : List Char)
    (hok : from_parts line fields sep = ParseResult.ok j)
    (hv : buildMap fields (splitOnList sep line) "ArrayTaskID".toList = some v) :
    (v = "N/A".toList → j.array_step = none ∧ Job.id j = j.job_id) ∧
    (v ≠ "N/A".toList → j.array_step = some v ∧ Job.id j = j.array_id ++ '_' :: v) := by
  obtain ⟨-, -, ⟨atid, hat, hstep⟩, -⟩ := from_partsAux_inv (from_parts_ok_inv hok)
  rw [hv] at hat
  injection hat with hat'
  subst hat'
  constructor
  · intro hna
    have h1 : j.array_step = none := by rw [hstep, if_pos hna]
    exact ⟨h1, by simp [Job.id, h1]⟩
  · intro hne
    have h1 : j.array_step = some v := by rw [hstep, if_neg hne]
    exact ⟨h1, by simp [Job.id, h1]⟩

theorem c3_composite_id_witness :
    from_parts sampleLine watcherFields sampleSep = ParseResult.ok sampleJob ∧
    sampleJob.array_step = some "3".toList ∧ Job.id sampleJob = "100_3".toList := by
  have hok : from_parts sampleLine watcherFields sampleSep = ParseResult.ok sampleJob := by
    decide
  have h := (c3_composite_id sampleLine watcherFields sampleSep sampleJob ("3".toList)
      hok (by decide)).2 (by decide)
  exact ⟨hok, h.1, by rw [h.2]; decide⟩

/-- C6: for every successfully parsed record, `tres` is the CPU/memory
allocation string unchanged when the device allocation field is `"N/A"`,
and otherwise the two strings joined with a comma, CPU/memory first. -/
theorem c6_tres_merge (line : List Char) (fields : List (List Char))
    (sep : List Char) (j : Job) (ct tn : List Char)
    (hok : from_parts line fields sep = ParseResult.ok j)
    (hct : buildMap fields (splitOnList sep line) "tres-alloc".toList = some ct)
    (htn : buildMap fields (splitOnList sep line) "tres-per-node".toList = some tn) :
    (tn = "N/A".toList → j.tres = ct) ∧
    (tn ≠ "N/A".toList → j.tres = ct ++ ',' :: tn) := by
  obtain ⟨-, -, -, -, -, -, -, -, ⟨ct', tn', hct', htn', htres⟩, -⟩ :=
    from_partsAux_inv (from_parts_ok_inv hok)
  rw [hct] at hct'
  rw [htn] at htn'
  injection hct' with e1
  injection htn' with e2
  subst e1
  subst e2
  exact ⟨fun h => by rw [htres, if_pos h], fun h => by rw [htres, if_neg h]⟩

theorem c6_tres_merge_witness :
    from_parts sampleLine watcherFields sampleSep = ParseResult.ok sampleJob ∧
    sampleJob.tres = "cpu=2,mem=4G,gpu:1".toList := by
  have hok : from_parts sampleLine watcherFields sampleSep = ParseResult.ok sampleJob := by
    decide
  have h := (c6_tres_merge sampleLine watcherFields sampleSep sampleJob
      ("cpu=2,mem=4G".toList) ("gpu:1".toList) hok (by decide) (by decide)).2 (by decide)
  exact ⟨hok, by rw [h]; decide⟩


/-- Every mandatory lookup succeeded in a line that produced a record. -/
theorem from_partsAux_mandatory_isSome {fv : List Char → Option (List Char)} {j : Job}
    (h : from_partsAux fv = some j) :
    ∀ k, k ∈ mandatoryFields → (fv k).isSome := by
  intro k hk
  obtain ⟨e1, e2, ⟨atid, e3, -⟩, e4, e5, e6, e7, e8, ⟨ct, tn, e9, e10, -⟩, e11, e12,
    e13, ⟨st, e14⟩, ⟨se, e15⟩, ⟨wd, e16⟩⟩ := from_partsAux_inv h
  simp only [mandatoryFields, List.mem_cons, List.not_mem_nil, or_false] at hk
  rcases hk with rfl | rfl | rfl | rfl | rfl | rfl | rfl | rfl | rfl | rfl | rfl | rfl
    | rfl | rfl | rfl | rfl <;> simp_all

/-- If every mandatory lookup succeeds, the field extraction produces a
record. -/
theorem from_partsAux_some_of_mandatory {fv : List Char → Option (List Char)}
    (h : ∀ k, k ∈ mandatoryFields → (fv k).isSome) :
    (from_partsAux fv).isSome := by
  have e1 := Option.isSome_iff_exists.mp (h "jobid".toList (by simp [mandatoryFields]))
  have e2 := Option.isSome_iff_exists.mp (h "ArrayJobID".toList (by simp [mandatoryFields]))
  have e3 := Option.isSome_iff_exists.mp (h "ArrayTaskID".toList (by simp [mandatoryFields]))
  have e4 := Option.isSome_iff_exists.mp (h "name".toList (by simp [mandatoryFields]))
  have e5 := Option.isSome_iff_exists.mp (h "state".toList (by simp [mandatoryFields]))
  have e6 := Option.isSome_iff_exists.mp (h "statecompact".toList (by simp [mandatoryFields]))
  have e7 := Option.isSome_iff_exists.mp (h "username".toList (by simp [mandatoryFields]))
  have e8 := Option.isSome_iff_exists.mp (h "timeused".toList (by simp [mandatoryFields]))
  have e9 := Option.isSome_iff_exists.mp (h "tres-alloc".toList (by simp [mandatoryFields]))
  have e10 := Option.isSome_iff_exists.mp
    (h "tres-per-node".toList (by simp [mandatoryFields]))
  have e11 := Option.isSome_iff_exists.mp (h "partition".toList (by simp [mandatoryFields]))
  have e12 := Option.isSome_iff_exists.mp (h "NodeList".toList (by simp [mandatoryFields]))
  have e13 := Option.isSome_iff_exists.mp (h "command".toList (by simp [mandatoryFields]))
  have e14 := Option.isSome_iff_exists.mp (h "stdout".toList (by simp [mandatoryFields]))
  have e15 := Option.isSome_iff_exists.mp (h "stderr".toList (by simp [mandatoryFields]))
  have e16 := Option.isSome_iff_exists.mp (h "WorkDir".toList (by simp [mandatoryFields]))
  obtain ⟨v1, e1⟩ := e1
  obtain ⟨v2, e2⟩ := e2
  obtain ⟨v3, e3⟩ := e3
  obtain ⟨v4, e4⟩ := e4
  obtain ⟨v5, e5⟩ := e5
  obtain ⟨v6, e6⟩ := e6
  obtain ⟨v7, e7⟩ := e7
  obtain ⟨v8, e8⟩ := e8
  obtain ⟨v9, e9⟩ := e9
  obtain ⟨v10, e10⟩ := e10
  obtain ⟨v11, e11⟩ := e11
  obtain ⟨v12, e12⟩ := e12
  obtain ⟨v13, e13⟩ := e13
  obtain ⟨v14, e14⟩ := e14
  obtain ⟨v15, e15⟩ := e15
  obtain ⟨v16, e16⟩ := e16
  have hr : ∀ p, resolve_path_fv p fv
      = some (resolve_path_pure p ⟨v2, v3, v1, v12, v7, v4, v16⟩) := by
    intro p
    unfold resolve_path_fv
    rw [e2, e3, e1, e12, e7, e4, e16]
  unfold from_partsAux
  rw [e1, e2, e3, e4, e5, e6, e7, e8, e9, e10, e11, e12, e13, e14, e15]
  simp only [hr, Option.isSome_some]

/-- C7: for every line splitting into exactly `fields.length + 1` pieces,
a mandatory field name absent from the lookup table makes the parse
abort (`unwrap` panic) rather than return `None` or a record; and when
every mandatory field name is present the abort branch is unreachable
and a record is returned. -/
theorem c7_mandatory_abort (line : List Char) (fields : List (List Char))
    (sep : List Char)
    (hlen : (splitOnList sep line).length = fields.length + 1) :
    ((∃ k, k ∈ mandatoryFields ∧ buildMap fields (splitOnList sep line) k = none) →
      from_parts line fields sep = ParseResult.panicked) ∧
    ((∀ k, k ∈ mandatoryFields → (buildMap fields (splitOnList sep line) k).isSome) →
      ∃ j, from_parts line fields sep = ParseResult.ok j) := by
  constructor
  · rintro ⟨k, hk, hnone⟩
    cases haux : from_partsAux (buildMap fields (splitOnList sep line)) with
    | none => simp [from_parts, hlen, haux]
    | some j =>
      exfalso
      have hs := from_partsAux_mandatory_isSome haux k hk
      rw [hnone] at hs
      simp at hs
  · intro hall
    obtain ⟨j, hj⟩ := Option.isSome_iff_exists.mp (from_partsAux_some_of_mandatory hall)
    refine ⟨j, ?_⟩
    simp [from_parts, hlen, hj]

theorem c7_mandatory_abort_witness :
    from_parts "1;".toList ["jobid".toList] ";".toList = ParseResult.panicked ∧
    ∃ j, from_parts sampleLine watcherFields sampleSep = ParseResult.ok j := by
  constructor
  · exact (c7_mandatory_abort "1;".toList ["jobid".toList] ";".toList (by decide)).1
      ⟨"ArrayJobID".toList, by decide, by decide⟩
  · exact (c7_mandatory_abort sampleLine watcherFields sampleSep (by decide)).2
      (by decide)

/-- A sample line whose raw `ArrayTaskID` piece is the literal
`"4294967294"` (the scheduler's own no-array sentinel). -/
def sampleLine2 : List Char :=
  ("7#x#RUNNING#u#1:00#cpu=2,mem=4G#p#n1#(null)#(null)#c#R#None#100#4294967294#n1,n2#/w#gpu:1#").toList

/-- The record `from_parts` produces for `sampleLine2`. -/
def sampleJob2 : Job :=
  { job_id := "7".toList
    array_id := "100".toList
    array_step := some "4294967294".toList
    name := "x".toList
    state := "RUNNING".toList
    state_compact := "R".toList
    reason := none
    user := "u".toList
    time := "1:00".toList
    tres := "cpu=2,mem=4G,gpu:1".toList
    partition := "p".toList
    nodelist := "n1,n2".toList
    stdout := none
    stderr := none
    command := "c".toList }

/-- C10: a raw array-task-id equal to the literal `"4294967294"` is
treated by the parser as a real array task (`array_step` present,
composite id `array_id ++ "_4294967294"`), yet the resolver's sentinel
normalization leaves it equal to the internal no-array sentinel, so an
empty template selects the non-array default `slurm-%J.out`. -/
theorem c10_sentinel_collision :
    (∀ (line : List Char) (fields : List (List Char)) (sep : List Char) (j : Job),
      from_parts line fields sep = ParseResult.ok j →
      buildMap fields (splitOnList sep line) "ArrayTaskID".toList = some slurmNoVal →
      j.array_step = some slurmNoVal ∧ Job.id j = j.array_id ++ '_' :: slurmNoVal) ∧
    normalizeTaskId slurmNoVal = slurmNoVal ∧
    (∀ ctx : ResolveCtx, ctx.arrayTaskId = slurmNoVal →
      resolve_path_pure [] ctx
        = resolve_path_pure (joinPath ctx.workingDir "slurm-%J.out".toList) ctx) := by
  refine ⟨?_, by decide, ?_⟩
  · intro line fields sep j hok hv
    obtain ⟨-, -, ⟨atid, hat, hstep⟩, -⟩ := from_partsAux_inv (from_parts_ok_inv hok)
    rw [hv] at hat
    injection hat with hat'
    subst hat'
    have h1 : j.array_step = some slurmNoVal := by
      rw [hstep, if_neg (by decide)]
    exact ⟨h1, by simp [Job.id, h1]⟩
  · intro ctx harr
    have hD : joinPath ctx.workingDir "slurm-%J.out".toList ≠ [] :=
      joinPath_ne_nil (by decide) _
    unfold resolve_path_pure
    rw [harr]
    simp [show normalizeTaskId slurmNoVal = slurmNoVal by decide, hD]

theorem c10_sentinel_collision_witness :
    (from_parts sampleLine2 watcherFields sampleSep = ParseResult.ok sampleJob2 ∧
      sampleJob2.array_step = some slurmNoVal ∧
      Job.id sampleJob2 = "100_4294967294".toList) ∧
    resolve_path_pure []
        ⟨"100".toList, slurmNoVal, "7".toList, "n1".toList, "u".toList, "x".toList,
         "/w".toList⟩
      = resolve_path_pure (joinPath "/w".toList "slurm-%J.out".toList)
        ⟨"100".toList, slurmNoVal, "7".toList, "n1".toList, "u".toList, "x".toList,
         "/w".toList⟩ := by
  have hok : from_parts sampleLine2 watcherFields sampleSep = ParseResult.ok sampleJob2 := by
    decide
  have h := c10_sentinel_collision.1 sampleLine2 watcherFields sampleSep sampleJob2
    hok (by decide)
  exact ⟨⟨hok, h.1, by rw [h.2]; decide⟩,
    c10_sentinel_collision.2.2 _ (by decide)⟩

/-! ## Lemmas for templates without placeholders -/

/-- A scan that finds no match finds none from any start offset. -/
theorem findMatches_nil_shift {l : List Char} {i : Nat}
    (h : findMatches l 0 = []) : findMatches l i = [] := by
  rw [findMatches_shift l i, h]
  rfl

/-- Concatenating two match-free strings is match-free, provided no new
match arises across the seam. -/
theorem findMatches_append_nil {b : List Char} : ∀ {a : List Char},
    findMatches a 0 = [] → findMatches b 0 = [] →
    (¬(a.getLast? = some '%' ∧ ∃ c, b.head? = some c ∧ c ∈ escapeChars)) →
    findMatches (a ++ b) 0 = []
  | [], _, hb, _ => by simpa using hb
  | [c], _, hb, hsep => by
    cases b with
    | nil => rfl
    | cons d b' =>
      have hnomatch : ¬(c = '%' ∧ d ∈ escapeChars) := by
        rintro ⟨h1, h2⟩
        exact hsep ⟨by simp [h1], d, rfl, h2⟩
      simp only [List.cons_append, List.nil_append, findMatches, if_neg hnomatch]
      exact findMatches_nil_shift hb
  | c :: c2 :: a'', ha, hb, hsep => by
    by_cases hm : c = '%' ∧ c2 ∈ escapeChars
    · rw [show findMatches (c :: c2 :: a'') 0
          = (0, c2) :: findMatches a'' 2 from by rw [findMatches, if_pos hm]] at ha
      exact absurd ha (by simp)
    · have ha' : findMatches (c2 :: a'') 0 = [] := by
        have h0 : findMatches (c2 :: a'') 1 = [] := by
          rw [findMatches, if_neg hm] at ha
          exact ha
        rw [findMatches_shift (c2 :: a'') 1] at h0
        exact List.map_eq_nil_iff.mp h0
      have hih := findMatches_append_nil ha' hb (by
        rintro ⟨h1, h2⟩
        exact hsep ⟨by rw [List.getLast?_cons_cons]; exact h1, h2⟩)
      simp only [List.cons_append, findMatches, if_neg hm]
      exact findMatches_nil_shift hih

/-- Joining onto an empty base is the identity. -/
theorem joinPath_nil_base (p : List Char) : joinPath [] p = p := by
  unfold joinPath
  split
  · rfl
  · rw [if_pos rfl]

/-- Joining onto an absolute base yields an absolute path. -/
theorem joinPath_head_abs {base : List Char} (p : List Char)
    (hb : base.head? = some '/') : (joinPath base p).head? = some '/' := by
  unfold joinPath
  split_ifs with h1 h2 h3
  · exact h1
  · rw [h2] at hb
    exact Option.noConfusion hb
  · rw [List.head?_append, hb]
    rfl
  · rw [List.head?_append, hb]
    rfl

/-- An absolute path replaces the base entirely. -/
theorem joinPath_abs {p : List Char} (base : List Char)
    (hp : p.head? = some '/') : joinPath base p = p := by
  unfold joinPath
  rw [if_pos hp]

/-- No placeholder match survives joining two match-free strings: the
inserted or adjacent `/` can complete no escape. -/
theorem findMatches_joinPath_nil {base t : List Char}
    (hb : findMatches base 0 = []) (ht : findMatches t 0 = []) :
    findMatches (joinPath base t) 0 = [] := by
  unfold joinPath
  split_ifs with h1 h2 h3
  · exact ht
  · exact ht
  · refine findMatches_append_nil hb ht ?_
    rintro ⟨hl, c, hc, -⟩
    rw [h3] at hl
    injection hl with hl'
    exact absurd hl' (by decide)
  · refine findMatches_append_nil hb ?_ ?_
    · cases t with
      | nil => rfl
      | cons d t' =>
        have : ¬('/' = '%' ∧ d ∈ escapeChars) := by
          rintro ⟨h, -⟩
          exact absurd h (by decide)
        rw [findMatches, if_neg this]
        exact findMatches_nil_shift ht
    · rintro ⟨-, c, hc, hcesc⟩
      injection hc with hc'
      rw [← hc'] at hcesc
      exact absurd hcesc (by decide)

/-- C8 counterexample: resolving the string of a resolved path again can
return a different path even though the template has no placeholders —
with a relative working directory the directory is prefixed a second
time, and with a working directory containing an escape the second pass
substitutes inside it. -/
theorem c8_counterexample :
    (resolve_path_pure "out.log".toList
        ⟨"10".toList, "2".toList, "7".toList, "n1".toList, "u".toList, "x".toList,
         "dir".toList⟩
      = some "dir/out.log".toList ∧
    resolve_path_pure "dir/out.log".toList
        ⟨"10".toList, "2".toList, "7".toList, "n1".toList, "u".toList, "x".toList,
         "dir".toList⟩
      = some "dir/dir/out.log".toList ∧
    ("dir/dir/out.log".toList ≠ "dir/out.log".toList)) ∧
    (resolve_path_pure "out.log".toList
        ⟨"10".toList, "2".toList, "7".toList, "n1".toList, "u".toList, "foo".toList,
         "/%x".toList⟩
      = some "/%x/out.log".toList ∧
    resolve_path_pure "/%x/out.log".toList
        ⟨"10".toList, "2".toList, "7".toList, "n1".toList, "u".toList, "foo".toList,
         "/%x".toList⟩
      = some "/foo/out.log".toList ∧
    ("/foo/out.log".toList ≠ "/%x/out.log".toList)) := by
  refine ⟨⟨by decide, by decide, by decide⟩, by decide, by decide, by decide⟩

/-- C8 (amended): a non-empty template without percent-escapes, distinct
from `"(null)"`, resolves to itself joined onto the working directory;
and when the working directory also contains no percent-escapes and is
empty or absolute, resolving the resulting string again returns the same
path. -/
theorem c8_no_placeholder_idempotent (ctx : ResolveCtx) (t : List Char)
    (ht : t ≠ []) (hesc : findMatches t 0 = []) (hnull : t ≠ "(null)".toList) :
    resolve_path_pure t ctx = some (joinPath ctx.workingDir t) ∧
    (findMatches ctx.workingDir 0 = [] →
      (ctx.workingDir = [] ∨ ctx.workingDir.head? = some '/') →
      resolve_path_pure (joinPath ctx.workingDir t) ctx
        = some (joinPath ctx.workingDir t)) := by
  have hpart1 : ∀ (u : List Char), u ≠ [] → findMatches u 0 = [] →
      u ≠ "(null)".toList → resolve_path_pure u ctx = some (joinPath ctx.workingDir u) := by
    intro u hu huesc hunull
    have hunull' : u ≠ ['(', 'n', 'u', 'l', 'l', ')'] := hunull
    unfold resolve_path_pure
    simp [hu, hunull', substMatches, huesc]
  refine ⟨hpart1 t ht hesc hnull, ?_⟩
  intro hwd hcase
  have hs_ne : joinPath ctx.workingDir t ≠ [] := joinPath_ne_nil ht _
  have hs_esc : findMatches (joinPath ctx.workingDir t) 0 = [] :=
    findMatches_joinPath_nil hwd hesc
  have hs_null : joinPath ctx.workingDir t ≠ "(null)".toList := by
    rcases hcase with hnil | habs
    · rw [hnil, joinPath_nil_base]
      exact hnull
    · intro heq
      have := joinPath_head_abs t habs
      rw [heq] at this
      exact absurd this (by decide)
  have hjoin : joinPath ctx.workingDir (joinPath ctx.workingDir t)
      = joinPath ctx.workingDir t := by
    rcases hcase with hnil | habs
    · rw [hnil, joinPath_nil_base, joinPath_nil_base]
    · exact joinPath_abs _ (joinPath_head_abs t habs)
  rw [hpart1 _ hs_ne hs_esc hs_null, hjoin]

theorem c8_no_placeholder_idempotent_witness :
    resolve_path_pure "out.log".toList
        ⟨"10".toList, "2".toList, "7".toList, "n1".toList, "u".toList, "x".toList,
         "/w".toList⟩
      = some (joinPath "/w".toList "out.log".toList) ∧
    resolve_path_pure (joinPath "/w".toList "out.log".toList)
        ⟨"10".toList, "2".toList, "7".toList, "n1".toList, "u".toList, "x".toList,
         "/w".toList⟩
      = some (joinPath "/w".toList "out.log".toList) := by
  have h := c8_no_placeholder_idempotent
    ⟨"10".toList, "2".toList, "7".toList, "n1".toList, "u".toList, "x".toList,
     "/w".toList⟩
    "out.log".toList (by decide) (by decide) (by decide)
  exact ⟨h.1, h.2 (by decide) (Or.inr (by decide))⟩
